import Mathlib

/-!
Verification development for the Windows MDM datastore layer
(`server/datastore/mysql/microsoft_mdm.go`): a shallow embedding in Lean of
the command dispatch queue, the response correlator, the profile reconciler,
the BitLocker disk-encryption classifier and the status aggregator, together
with theorems settling the specification claims about them.

Conventions of the embedding:
- MySQL tables are lists of rows; nullable columns are `Option` values
  (`none` = SQL `NULL`).
- Timestamps are `Int` seconds; `NOW()` is an explicit `now : Int` parameter.
- `INSERT ... ON DUPLICATE KEY UPDATE` statements are modelled as sequential
  per-row upserts on the list of rows (MySQL processes the VALUES rows in
  order); multi-batch loops have the same final effect as their sequential
  composition, which is what is modelled.
-/

set_option maxHeartbeats 1000000

namespace MicrosoftMDM

/-! ## BitLocker disk-encryption classifier (`whereBitLockerStatus`) -/

/-- The four BitLocker/disk-encryption classes used by the classifier
(`fleet.DiskEncryptionStatus`; `enforcing` is reported externally as
"pending"). -/
inductive DiskEncryptionStatus where
  | verified
  | verifying
  | enforcing
  | failed
deriving DecidableEq

/-- One host's disk-encryption signal columns, as joined by the queries that
embed `whereBitLockerStatus`: `hmdm.is_server`, `hdek.base64_encrypted`,
`hdek.decryptable`, `hdek.client_error`, `hdek.updated_at`, `hd.encrypted`,
`hd.updated_at`. Every column is nullable because the joins are LEFT JOINs. -/
structure BitLockerSignals where
  isServer : Option Bool
  base64Encrypted : Option String
  decryptable : Option Bool
  clientError : Option String
  hdekUpdatedAt : Option Int
  encrypted : Option Bool
  hdUpdatedAt : Option Int
deriving DecidableEq

/-- Predicate `(hmdm.is_server IS NOT NULL AND hmdm.is_server = 0)`. -/
def whereNotServer (s : BitLockerSignals) : Bool :=
  match s.isServer with
  | some b => !b
  | none => false

/-- Predicate `(hdek.base64_encrypted IS NOT NULL AND hdek.base64_encrypted != '' AND
hdek.decryptable IS NOT NULL AND hdek.decryptable = 1)`. -/
def whereKeyAvailable (s : BitLockerSignals) : Bool :=
  (match s.base64Encrypted with
   | some k => !(k == "")
   | none => false) &&
  (match s.decryptable with
   | some d => d
   | none => false)

/-- Predicate `(hd.encrypted IS NOT NULL AND hd.encrypted = 1)`. -/
def whereEncrypted (s : BitLockerSignals) : Bool :=
  match s.encrypted with
  | some e => e
  | none => false

/-- Predicate `(hd.updated_at IS NOT NULL AND hdek.updated_at IS NOT NULL AND
hd.updated_at >= hdek.updated_at)`. -/
def whereHostDisksUpdated (s : BitLockerSignals) : Bool :=
  match s.hdUpdatedAt, s.hdekUpdatedAt with
  | some t1, some t2 => decide (t1 ≥ t2)
  | _, _ => false

/-- Predicate `(hdek.client_error IS NOT NULL AND hdek.client_error != '')`. -/
def whereClientError (s : BitLockerSignals) : Bool :=
  match s.clientError with
  | some e => !(e == "")
  | none => false

/-- Predicate `(hdek.updated_at IS NOT NULL AND hdek.updated_at >= DATE_SUB(NOW(),
INTERVAL 1 HOUR))`: the key's timestamp is within the last hour relative to
the evaluation time `now` (one hour = 3600 seconds). -/
def withinGracePeriod (now : Int) (s : BitLockerSignals) : Bool :=
  match s.hdekUpdatedAt with
  | some t => decide (t ≥ now - 3600)
  | none => false

/-- The `fleet.DiskEncryptionVerified` branch of `whereBitLockerStatus`. -/
def bitLockerVerified (s : BitLockerSignals) : Bool :=
  whereNotServer s && !whereClientError s && whereKeyAvailable s &&
  whereEncrypted s && whereHostDisksUpdated s

/-- The `fleet.DiskEncryptionVerifying` branch of `whereBitLockerStatus`. -/
def bitLockerVerifying (now : Int) (s : BitLockerSignals) : Bool :=
  whereNotServer s && !whereClientError s && whereKeyAvailable s &&
  ((whereEncrypted s && !whereHostDisksUpdated s) ||
   (!whereEncrypted s && whereHostDisksUpdated s && withinGracePeriod now s))

/-- The `fleet.DiskEncryptionEnforcing` branch of `whereBitLockerStatus`. -/
def bitLockerEnforcing (now : Int) (s : BitLockerSignals) : Bool :=
  whereNotServer s && !whereClientError s &&
  (!whereKeyAvailable s ||
   (whereKeyAvailable s &&
    (!whereEncrypted s && (!whereHostDisksUpdated s || !withinGracePeriod now s))))

/-- The `fleet.DiskEncryptionFailed` branch of `whereBitLockerStatus`. -/
def bitLockerFailed (s : BitLockerSignals) : Bool :=
  whereNotServer s && whereClientError s

/-- The `CASE WHEN ... END AS status` expression of
`GetMDMWindowsBitLockerStatus`: the four `whereBitLockerStatus` predicates
tried in the order verified, verifying, enforcing, failed; `none` when no
branch matches (the SQL CASE yields NULL). -/
def getMDMWindowsBitLockerStatus (now : Int) (s : BitLockerSignals) :
    Option DiskEncryptionStatus :=
  if bitLockerVerified s then some .verified
  else if bitLockerVerifying now s then some .verifying
  else if bitLockerEnforcing now s then some .enforcing
  else if bitLockerFailed s then some .failed
  else none

/-- One row of the `GetMDMWindowsBitLockerSummary` FROM clause: a host with
its platform, team and LEFT JOINed disk-encryption signal columns. -/
structure SummaryHostRow where
  platform : String
  teamID : Option Nat
  signals : BitLockerSignals
deriving DecidableEq

/-- The WHERE clause of `GetMDMWindowsBitLockerSummary`:
`h.platform = 'windows' AND hmdm.is_server = 0 AND <teamFilter>`, where the
team filter is `h.team_id = ?` when a team id greater than zero is given and
`h.team_id IS NULL` otherwise. -/
def bitLockerSummaryWhere (teamID : Option Nat) (h : SummaryHostRow) : Bool :=
  h.platform == "windows" && h.signals.isServer == some false &&
  (match teamID with
   | some t => if t > 0 then h.teamID == some t else h.teamID == none
   | none => h.teamID == none)

/-- The result columns of `GetMDMWindowsBitLockerSummary`
(`fleet.MDMWindowsBitLockerSummary`). -/
structure MDMWindowsBitLockerSummary where
  verified : Nat
  verifying : Nat
  actionRequired : Nat
  enforcing : Nat
  failed : Nat
  removingEnforcement : Nat
deriving DecidableEq

/-- Function `GetMDMWindowsBitLockerSummary`: when disk encryption is not enabled for
the scope the all-zero summary is returned; otherwise each class counts the
hosts passing the WHERE clause whose signals satisfy the corresponding
`whereBitLockerStatus` predicate (`COUNT(if((...), 1, NULL))`). -/
def getMDMWindowsBitLockerSummary (enabled : Bool) (now : Int)
    (teamID : Option Nat) (hosts : List SummaryHostRow) :
    MDMWindowsBitLockerSummary :=
  if !enabled then ⟨0, 0, 0, 0, 0, 0⟩
  else
    let rows := hosts.filter (bitLockerSummaryWhere teamID)
    { verified := rows.countP fun h => bitLockerVerified h.signals
      verifying := rows.countP fun h => bitLockerVerifying now h.signals
      actionRequired := 0
      enforcing := rows.countP fun h => bitLockerEnforcing now h.signals
      failed := rows.countP fun h => bitLockerFailed h.signals
      removingEnforcement := 0 }

/-! ## Status aggregator merge (`getMDMWindowsStatusCountsProfilesAndBitLockerDB`) -/

/-- The four profile-delivery classes produced by the
`subqueryHostsMDMWindowsOSSettingsStatus*` EXISTS-subqueries. -/
inductive ProfilesDeliveryStatus where
  | failed
  | pending
  | verifying
  | verified
deriving DecidableEq

/-- The tag computed by the inner `profilesStatus` CASE of
`getMDMWindowsStatusCountsProfilesAndBitLockerDB` for each delivery class. -/
def profilesStatusTag : ProfilesDeliveryStatus → String
  | .failed => "profiles_failed"
  | .pending => "profiles_pending"
  | .verifying => "profiles_verifying"
  | .verified => "profiles_verified"

/-- The tag computed by the inner `bitlockerStatus` CASE of
`getMDMWindowsStatusCountsProfilesAndBitLockerDB` for each disk-encryption
class; the enforcing class is tagged `bitlocker_pending`. -/
def bitlockerStatusTag : DiskEncryptionStatus → String
  | .verified => "bitlocker_verified"
  | .verifying => "bitlocker_verifying"
  | .enforcing => "bitlocker_pending"
  | .failed => "bitlocker_failed"

/-- The outer merge CASE of `getMDMWindowsStatusCountsProfilesAndBitLockerDB`:
given the host's `profilesStatus` tag and `bitlockerStatus` tag, produce the
final bucket name. The ELSE branch is `REPLACE(bitlockerStatus,
'bitlocker_', '')`. -/
def mergeProfilesBitLockerStatus (profilesStatus bitlockerStatus : String) :
    String :=
  if profilesStatus == "profiles_failed" then "failed"
  else if profilesStatus == "profiles_pending" then
    (if bitlockerStatus == "bitlocker_failed" then "failed" else "pending")
  else if profilesStatus == "profiles_verifying" then
    (if bitlockerStatus == "bitlocker_failed" then "failed"
     else if bitlockerStatus == "bitlocker_pending" then "pending"
     else "verifying")
  else if profilesStatus == "profiles_verified" then
    (if bitlockerStatus == "bitlocker_failed" then "failed"
     else if bitlockerStatus == "bitlocker_pending" then "pending"
     else if bitlockerStatus == "bitlocker_verifying" then "verifying"
     else "verified")
  else bitlockerStatus.replace "bitlocker_" ""

/-- The merge rule exactly as the spec words it (spec section 4.6): delivery
Failed wins outright; delivery Pending falls to Failed only on a Failed disk
class; delivery Verifying falls to Failed or Pending on those disk classes;
delivery Verified passes the disk class through unchanged. The disk class
`enforcing` is the spec's "Pending" bucket. -/
def specAggregatorMergeRule : ProfilesDeliveryStatus → DiskEncryptionStatus →
    String
  | .failed, _ => "failed"
  | .pending, .failed => "failed"
  | .pending, _ => "pending"
  | .verifying, .failed => "failed"
  | .verifying, .enforcing => "pending"
  | .verifying, _ => "verifying"
  | .verified, .failed => "failed"
  | .verified, .enforcing => "pending"
  | .verified, .verifying => "verifying"
  | .verified, .verified => "verified"

/-! ## Data model shared by the dispatch queue, correlator and reconciler -/

/-- Row of `mdm_windows_enrollments` (columns relevant to the operations
verified here; the remaining columns — device state, type, name, protocol and
client versions, OOBE flag — are carried opaquely by none of the verified
code paths). -/
structure MDMWindowsEnrolledDevice where
  id : Nat
  mdmDeviceID : String
  mdmHardwareID : String
  hostUUID : String
deriving DecidableEq

/-- Row of `windows_mdm_commands`. -/
structure MDMWindowsCommand where
  commandUUID : String
  rawCommand : String
  targetLocURI : String
deriving DecidableEq

/-- Row of `windows_mdm_command_queue`. -/
structure QueueRow where
  enrollmentId : Nat
  commandUUID : String
deriving DecidableEq

/-- Row of `windows_mdm_responses`. -/
structure ResponseRow where
  id : Nat
  enrollmentId : Nat
  rawResponse : String
deriving DecidableEq

/-- Row of `windows_mdm_command_results`. `raw_result` and `status_code` are
kept as `Option String` so that the NULL-versus-empty-string distinction that
the `COALESCE` upsert depends on is visible. -/
structure CmdResultRow where
  enrollmentId : Nat
  commandUUID : String
  rawResult : Option String
  responseId : Nat
  statusCode : Option String
deriving DecidableEq

/-- Row of `mdm_windows_configuration_profiles`. -/
structure MDMWindowsConfigProfileRow where
  profileUUID : String
  teamID : Nat
  name : String
  syncml : String
deriving DecidableEq

/-- Row of `mdm_apple_configuration_profiles` (only the columns used by the
`NOT EXISTS` guard of `NewMDMWindowsConfigProfile`). -/
structure AppleProfileRow where
  teamID : Nat
  name : String
deriving DecidableEq

/-- Row of `hosts` (columns used by the reconciler joins). -/
structure HostRow where
  uuid : String
  teamID : Option Nat
  platform : String
deriving DecidableEq

/-- Row of `host_mdm_windows_profiles`. A `none` status is the SQL NULL
status, i.e. the NotDispatched state. -/
structure HMWPRow where
  profileUUID : String
  hostUUID : String
  profileName : String
  operationType : String
  status : Option String
  detail : String
  commandUUID : Option String
deriving DecidableEq

/-- Composite key of a `host_mdm_windows_profiles` row. -/
def hmwpKey (r : HMWPRow) : String × String :=
  (r.profileUUID, r.hostUUID)

/-- The whole datastore state touched by the verified operations. -/
structure DB where
  enrollments : List MDMWindowsEnrolledDevice
  commands : List MDMWindowsCommand
  commandQueue : List QueueRow
  responses : List ResponseRow
  commandResults : List CmdResultRow
  profiles : List MDMWindowsConfigProfileRow
  appleProfiles : List AppleProfileRow
  hosts : List HostRow
  hostProfiles : List HMWPRow
deriving DecidableEq

/-- Function `MDMWindowsGetEnrolledDeviceWithDeviceID`:
`SELECT ... FROM mdm_windows_enrollments WHERE mdm_device_id = ?`
(`sqlx.GetContext` takes the first matching row; `none` is the NotFound
error). -/
def MDMWindowsGetEnrolledDeviceWithDeviceID (db : DB) (mdmDeviceID : String) :
    Option MDMWindowsEnrolledDevice :=
  db.enrollments.find? fun e => e.mdmDeviceID == mdmDeviceID

/-! ## Response correlator (`MDMWindowsSaveResponse`) -/

/-- The protocol verbs the correlator dispatches on (`fleet.CmdStatus`,
`fleet.CmdResults`, and any other verb). -/
inductive SyncMLVerb where
  | status
  | results
  | other
deriving DecidableEq

/-- The fields of a `fleet.SyncMLCmd` read by `MDMWindowsSaveResponse`:
`CmdRef`, `Data`, and the command-class tag `Cmd` (equal to
`fleet.CmdAtomic`, i.e. the string "Atomic", for atomic configuration
changes). -/
structure SyncMLCmd where
  cmdRef : Option String
  data : Option String
  cmdType : Option String
deriving DecidableEq

/-- One entry of `fullResponse.GetOrderedCmds()`: a verb-tagged operation.
The `tracked` flag models `fleet.SyncMLCmd.ShouldBeTracked(verb)`.
Modelled from the spec: trackability is a protocol-semantics predicate
supplied by the protocol-decoding collaborator (spec sections 4.3 and 9);
the `fleet` package defining it is not part of this repository, so it is
carried as an input bit on each operation. -/
structure ProtoCmdOperation where
  verb : SyncMLVerb
  cmd : SyncMLCmd
  tracked : Bool
deriving DecidableEq

/-- A parsed device response (`fleet.SyncML`): the raw payload plus the
ordered operation list. -/
structure SyncML where
  raw : String
  orderedCmds : List ProtoCmdOperation
deriving DecidableEq

/-- Insert-or-replace into an association list, modelling assignment into a
Go map (`m[k] = v`). -/
def assocUpsert (m : List (String × SyncMLCmd)) (k : String) (v : SyncMLCmd) :
    List (String × SyncMLCmd) :=
  if m.any fun p => p.1 == k then
    m.map fun p => if p.1 == k then (k, v) else p
  else m ++ [(k, v)]

/-- Lookup in an association list, modelling a Go map read. -/
def assocGet (m : List (String × SyncMLCmd)) (k : String) : Option SyncMLCmd :=
  (m.find? fun p => p.1 == k).map fun p => p.2

/-- The first loop of the `MDMWindowsSaveResponse` transaction: walk the
ordered operations, skip those that are untracked or have no command
reference, and accumulate the referenced UUIDs together with the
`uuidsToStatus` and `uuidsToResults` maps. -/
def collectTracked (resp : SyncML) :
    List String × List (String × SyncMLCmd) × List (String × SyncMLCmd) :=
  resp.orderedCmds.foldl
    (fun acc op =>
      match op.cmd.cmdRef with
      | none => acc
      | some ref =>
        if !op.tracked then acc
        else
          match op.verb with
          | .status => (acc.1 ++ [ref], assocUpsert acc.2.1 ref op.cmd, acc.2.2)
          | .results => (acc.1 ++ [ref], acc.2.1, assocUpsert acc.2.2 ref op.cmd)
          | .other => acc)
    ([], [], [])

/-- Serialization of a referenced Results operation, modelling
`xml.Marshal(result)` on the `fleet.SyncMLCmd` value: an opaque, concrete
XML-shaped encoding of the fields. -/
def xmlMarshal (c : SyncMLCmd) : String :=
  "<SyncMLCmd><CmdRef>" ++ (c.cmdRef.getD "") ++ "</CmdRef><Data>" ++
  (c.data.getD "") ++ "</Data></SyncMLCmd>"

/-- The payload handed to the profile reconciler for an atomic command
(`fleet.MDMWindowsProfilePayload` as consumed by
`updateMDMWindowsHostProfileStatusFromResponseDB`: host, command, detail and
status). -/
structure MDMWindowsProfilePayload where
  hostUUID : String
  commandUUID : String
  detail : String
  status : Option String
deriving DecidableEq

/-- Modelled from the spec:
`fleet.BuildMDMWindowsProfilePayloadFromMDMResponse` lives in the `fleet`
package, which is not part of this repository. Per spec section 4.3 step 6 it
synthesizes a (status, detail) outcome for the (host, command) pair of an
atomic Status operation; a 2xx status code is a success (verifying), anything
else a failure carrying the code as detail. -/
def BuildMDMWindowsProfilePayloadFromMDMResponse (cmd : MDMWindowsCommand)
    (statusCmd : SyncMLCmd) (hostUUID : String) : MDMWindowsProfilePayload :=
  let code := statusCmd.data.getD ""
  if code.startsWith "2" then
    { hostUUID := hostUUID, commandUUID := cmd.commandUUID,
      detail := "", status := some "verifying" }
  else
    { hostUUID := hostUUID, commandUUID := cmd.commandUUID,
      detail := code, status := some "failed" }

/-- Insert-or-replace into the association list of payloads keyed by command
UUID, modelling the `uuidsToPayloads` Go map. -/
def payloadAssocUpsert (m : List (String × MDMWindowsProfilePayload))
    (p : MDMWindowsProfilePayload) : List (String × MDMWindowsProfilePayload) :=
  if m.any fun q => q.1 == p.commandUUID then
    m.map fun q => if q.1 == p.commandUUID then (p.commandUUID, p) else q
  else m ++ [(p.commandUUID, p)]

/-- One VALUES row of the batch update in
`updateMDMWindowsHostProfileStatusFromResponseDB` applied as an
`INSERT ... ON DUPLICATE KEY UPDATE detail = VALUES(detail),
status = VALUES(status)` upsert. The VALUES tuple names the literal column
`command_uuid` in its fifth position; that self-reference only takes effect
on the fresh-insert branch, where it yields the column default (modelled as
NULL) — on the duplicate-key branch `command_uuid` is not among the updated
columns and is untouched. -/
def upsertProfileStatusRow (rows : List HMWPRow)
    (v : String × String × String × Option String) : List HMWPRow :=
  let hostUUID := v.1
  let profileUUID := v.2.1
  let detail := v.2.2.1
  let status := v.2.2.2
  if rows.any fun r => r.profileUUID == profileUUID && r.hostUUID == hostUUID then
    rows.map fun r =>
      if r.profileUUID == profileUUID && r.hostUUID == hostUUID then
        { r with detail := detail, status := status }
      else r
  else
    rows ++ [{ profileUUID := profileUUID, hostUUID := hostUUID,
               profileName := "", operationType := "", status := status,
               detail := detail, commandUUID := none }]

/-- Application of one matched (payload, row) pair of
`updateMDMWindowsHostProfileStatusFromResponseDB`'s batch to the table: the
VALUES row `(hp.HostUUID, hp.ProfileUUID, payload.Detail, payload.Status)`
applied as an upsert (the `none` case never reaches the batch — the source
dereferences the payload unconditionally). -/
def applyProfileStatusLookup (rows : List HMWPRow)
    (l : Option MDMWindowsProfilePayload × HMWPRow) : List HMWPRow :=
  match l.1 with
  | some payload =>
    upsertProfileStatusRow rows
      (l.2.hostUUID, l.2.profileUUID, payload.detail, payload.status)
  | none => rows

/-- Function `updateMDMWindowsHostProfileStatusFromResponseDB`: select the
`host_mdm_windows_profiles` rows of the payloads' host whose `command_uuid`
is among the collected command UUIDs, then batch-update their detail and
status. `commandUUIDs` starts with one empty string per payload because the
Go code allocates the slice with `make([]string, len(payloads))` and then
appends. Error cases: payloads for different hosts (explicit error in the
source); a matching row whose command UUID has no payload (a nil-map lookup
is dereferenced in the source — modelled as an aborting error); no matching
rows at all (the generated statement has an empty VALUES list and fails to
execute). -/
def updateMDMWindowsHostProfileStatusFromResponseDB (hostProfiles : List HMWPRow)
    (payloads : List MDMWindowsProfilePayload) : Except String (List HMWPRow) :=
  match payloads with
  | [] => .ok hostProfiles
  | p0 :: _ =>
    if !(payloads.all fun p => p.hostUUID == p0.hostUUID) then
      .error "all payloads must be for the same host uuid"
    else
      let commandUUIDs : List String :=
        List.replicate payloads.length "" ++ payloads.map fun p => p.commandUUID
      let uuidsToPayloads :=
        payloads.foldl payloadAssocUpsert []
      let matchingHostProfiles := hostProfiles.filter fun r =>
        r.hostUUID == p0.hostUUID &&
        (match r.commandUUID with
         | some c => commandUUIDs.contains c
         | none => false)
      if matchingHostProfiles.isEmpty then
        .error "updating host profiles: empty VALUES list"
      else
        let lookups := matchingHostProfiles.map fun hp =>
          ((uuidsToPayloads.find? fun q =>
              q.1 == hp.commandUUID.getD "").map fun q => q.2, hp)
        if lookups.any fun l => l.1.isNone then
          .error "nil payload dereference"
        else
          .ok (lookups.foldl applyProfileStatusLookup hostProfiles)

/-- MySQL `COALESCE` on two nullable values: the first non-NULL argument. -/
def sqlCoalesce (a b : Option String) : Option String :=
  match a with
  | some v => some v
  | none => b

/-- One VALUES row of `insertResultsStmt` applied as an upsert on
`windows_mdm_command_results` (key: enrollment id and command UUID). On a
duplicate key, `raw_result` and `status_code` are each replaced by
`COALESCE(VALUES(col), col)` — the incoming value unless it is NULL — and
`response_id` is not among the updated columns, so it keeps its prior
value. -/
def upsertCmdResult (rows : List CmdResultRow) (nw : CmdResultRow) :
    List CmdResultRow :=
  if rows.any fun r =>
      r.enrollmentId == nw.enrollmentId && r.commandUUID == nw.commandUUID then
    rows.map fun r =>
      if r.enrollmentId == nw.enrollmentId && r.commandUUID == nw.commandUUID then
        { r with rawResult := sqlCoalesce nw.rawResult r.rawResult,
                 statusCode := sqlCoalesce nw.statusCode r.statusCode }
      else r
  else rows ++ [nw]

/-- Auto-increment id for a new `windows_mdm_responses` row
(`LastInsertId`). -/
def nextResponseId (rs : List ResponseRow) : Nat :=
  (rs.foldl (fun m r => max m r.id) 0) + 1

/-- The body of the `withRetryTxx` closure of `MDMWindowsSaveResponse`, run
against the snapshot `db` with the pre-resolved `enrollment`: collect the
tracked Status/Results references; no references is a no-op; store the full
response; match the referenced UUIDs against `windows_mdm_commands` (no
matches logs a warning and commits with just the response stored); update
host profile statuses from the synthesized payloads; upsert the command
results with `raw_result = COALESCE(VALUES(raw_result), raw_result),
status_code = COALESCE(VALUES(status_code), status_code)`; finally dequeue
with `DELETE FROM windows_mdm_command_queue WHERE command_uuid IN (?)`. -/
def saveResponseTx (db : DB) (enrollment : MDMWindowsEnrolledDevice)
    (resp : SyncML) : Except String DB :=
  let collected := collectTracked resp
  let cmdUUIDs := collected.1
  let uuidsToStatus := collected.2.1
  let uuidsToResults := collected.2.2
  if cmdUUIDs.isEmpty then .ok db
  else
    let responseId := nextResponseId db.responses
    let responses' := db.responses ++
      [{ id := responseId, enrollmentId := enrollment.id, rawResponse := resp.raw }]
    let matchingCmds := db.commands.filter fun c =>
      cmdUUIDs.contains c.commandUUID
    if matchingCmds.isEmpty then .ok { db with responses := responses' }
    else
      let statusCodeOf := fun (c : MDMWindowsCommand) =>
        match assocGet uuidsToStatus c.commandUUID with
        | some st => match st.data with
          | some d => d
          | none => ""
        | none => ""
      let rawResultOf := fun (c : MDMWindowsCommand) =>
        match assocGet uuidsToResults c.commandUUID with
        | some r => match r.data with
          | some _ => xmlMarshal r
          | none => ""
        | none => ""
      let payloads := matchingCmds.filterMap fun c =>
        match assocGet uuidsToStatus c.commandUUID with
        | some st => match st.data with
          | some _ =>
            if st.cmdType == some "Atomic" then
              some (BuildMDMWindowsProfilePayloadFromMDMResponse c st
                enrollment.hostUUID)
            else none
          | none => none
        | none => none
      let resultRows : List CmdResultRow := matchingCmds.map fun c =>
        { enrollmentId := enrollment.id, commandUUID := c.commandUUID,
          rawResult := some (rawResultOf c), responseId := responseId,
          statusCode := some (statusCodeOf c) }
      match updateMDMWindowsHostProfileStatusFromResponseDB db.hostProfiles
        payloads with
      | .error e => .error e
      | .ok hostProfiles' =>
        let commandResults' := resultRows.foldl upsertCmdResult db.commandResults
        let matchingUUIDs := matchingCmds.map fun c => c.commandUUID
        .ok { db with
              responses := responses'
              hostProfiles := hostProfiles'
              commandResults := commandResults'
              commandQueue := db.commandQueue.filter fun q =>
                !matchingUUIDs.contains q.commandUUID }

/-- Function `MDMWindowsSaveResponse` for a single transaction attempt: reject an
empty raw response, resolve the enrollment by device id (this happens before
the retrying transaction starts), then run the transaction body. -/
def MDMWindowsSaveResponse (db : DB) (deviceID : String) (resp : SyncML) :
    Except String DB :=
  if resp.raw == "" then .error "empty raw response"
  else
    match MDMWindowsGetEnrolledDeviceWithDeviceID db deviceID with
    | none => .error "getting enrollment with device ID"
    | some enrollment => saveResponseTx db enrollment resp

/-- Function `MDMWindowsSaveResponse` across retries of the transaction. `dbs i` is
the datastore state seen by transaction attempt `i`; attempts
`0 .. failedAttempts - 1` abort on a transient conflict and attempt
`failedAttempts` runs to completion against `dbs failedAttempts`. In the
source the enrollment lookup precedes the `ds.withRetryTxx` call, so it is
performed exactly once against the state seen before the first attempt
(`dbs 0`), and every attempt runs the transaction body with that same
enrollment value. -/
def MDMWindowsSaveResponseRetrying (dbs : Nat → DB) (failedAttempts : Nat)
    (deviceID : String) (resp : SyncML) : Except String DB :=
  if resp.raw == "" then .error "empty raw response"
  else
    match MDMWindowsGetEnrolledDeviceWithDeviceID (dbs 0) deviceID with
    | none => .error "getting enrollment with device ID"
    | some enrollment => saveResponseTx (dbs failedAttempts) enrollment resp

/-- Modelled from the spec: the variant the specification describes, in which
the enrollment lookup "must happen fresh at the start of the transaction — no
stale identity across retries" (spec sections 4.3 step 4 and 5), so the
attempt that finally commits resolves the enrollment against its own
snapshot. -/
def MDMWindowsSaveResponseRetryingFreshLookup (dbs : Nat → DB)
    (failedAttempts : Nat) (deviceID : String) (resp : SyncML) :
    Except String DB :=
  if resp.raw == "" then .error "empty raw response"
  else
    match MDMWindowsGetEnrolledDeviceWithDeviceID (dbs failedAttempts)
      deviceID with
    | none => .error "getting enrollment with device ID"
    | some enrollment => saveResponseTx (dbs failedAttempts) enrollment resp

/-! ## Profile reconciler -/

/-- One element of the desired set: a (profile, host) pair with the
denormalized profile name, as selected by the `ds` subquery of the
install/remove queries. -/
structure InstallItem where
  profileUUID : String
  hostUUID : String
  profileName : String
deriving DecidableEq

/-- Composite key of a desired-set element. -/
def itemKey (d : InstallItem) : String × String :=
  (d.profileUUID, d.hostUUID)

/-- The `ds` subquery shared by `listMDMWindowsProfilesToInstallDB` and
`listMDMWindowsProfilesToRemoveDB`:
`mdm_windows_configuration_profiles` JOIN `hosts` on
`h.team_id = mwcp.team_id OR (h.team_id IS NULL AND mwcp.team_id = 0)`
JOIN `mdm_windows_enrollments` on `mwe.host_uuid = h.uuid`, restricted to
`h.platform = 'windows'`, with the host filter `TRUE` when `hostUUIDs` is
empty and `h.uuid IN (hostUUIDs)` otherwise (the remove query's `ds` carries
no host filter, which corresponds to passing `[]`). -/
def desiredItems (db : DB) (hostUUIDs : List String) : List InstallItem :=
  db.profiles.flatMap fun p =>
    (db.hosts.filter fun h =>
      (h.teamID == some p.teamID || (h.teamID == none && p.teamID == 0)) &&
      h.platform == "windows" &&
      (hostUUIDs.isEmpty || hostUUIDs.contains h.uuid)).flatMap fun h =>
        (db.enrollments.filter fun e => e.hostUUID == h.uuid).map fun _ =>
          { profileUUID := p.profileUUID, hostUUID := h.uuid,
            profileName := p.name }

/-- Function `listMDMWindowsProfilesToInstallDB`: LEFT JOIN the desired set against
`host_mdm_windows_profiles` on the (profile, host) key and keep the joined
rows where either no actual row matched, or a matched row has operation type
"install" and NULL status. -/
def listMDMWindowsProfilesToInstallDB (db : DB) (hostUUIDs : List String) :
    List InstallItem :=
  (desiredItems db hostUUIDs).flatMap fun d =>
    let ms := db.hostProfiles.filter fun r => hmwpKey r = itemKey d
    if ms.isEmpty then [d]
    else
      (ms.filter fun r =>
        r.operationType == "install" && r.status == none).map fun _ => d

/-- Function `listMDMWindowsProfilesToRemoveDB`: RIGHT JOIN the (unfiltered) desired
set against `host_mdm_windows_profiles` and keep the actual rows with no
desired counterpart, restricted by the host filter (`TRUE` when `hostUUIDs`
is empty, `hmwp.host_uuid IN (hostUUIDs)` otherwise). -/
def listMDMWindowsProfilesToRemoveDB (db : DB) (hostUUIDs : List String) :
    List HMWPRow :=
  db.hostProfiles.filter fun r =>
    ((desiredItems db []).all fun d => !(itemKey d = hmwpKey r : Bool)) &&
    (hostUUIDs.isEmpty || hostUUIDs.contains r.hostUUID)

/-- Function `bulkDeleteMDMWindowsHostsConfigProfilesDB`: delete from
`host_mdm_windows_profiles` every row whose (profile, host) key appears in
the batch (`(profile_uuid, host_uuid) IN (...)`; the batching over `profs`
composes to one key-set filter). -/
def bulkDeleteMDMWindowsHostsConfigProfilesDB (rows : List HMWPRow)
    (profs : List HMWPRow) : List HMWPRow :=
  rows.filter fun r => !(profs.any fun p => hmwpKey p = hmwpKey r)

/-- One VALUES row of the pending-upsert of
`bulkSetPendingMDMWindowsHostProfilesDB`: values
`(profile_uuid, host_uuid, profile_name, 'install', NULL, '')` with
`ON DUPLICATE KEY UPDATE operation_type = VALUES(operation_type),
status = NULL, command_uuid = VALUES(command_uuid), detail = ''`;
`profile_name` is not among the updated columns. The `detail` column is
absent from the insert column list and takes its default empty value on a
fresh insert. -/
def upsertPendingRow (rows : List HMWPRow) (d : InstallItem) : List HMWPRow :=
  if rows.any fun r => hmwpKey r = itemKey d then
    rows.map fun r =>
      if hmwpKey r = itemKey d then
        { r with operationType := "install", status := none,
                 commandUUID := some "", detail := "" }
      else r
  else
    rows ++ [{ profileUUID := d.profileUUID, hostUUID := d.hostUUID,
               profileName := d.profileName, operationType := "install",
               status := none, detail := "", commandUUID := some "" }]

/-- The write phase of `bulkSetPendingMDMWindowsHostProfilesDB`: hard-delete
the remove set from `host_mdm_windows_profiles`, then upsert every
install-set element to the pending (NotDispatched) state. -/
def applyPendingRows (db : DB) (uuids : List String) : List HMWPRow :=
  (listMDMWindowsProfilesToInstallDB db uuids).foldl upsertPendingRow
    (bulkDeleteMDMWindowsHostsConfigProfilesDB db.hostProfiles
      (listMDMWindowsProfilesToRemoveDB db uuids))

/-- Function `bulkSetPendingMDMWindowsHostProfilesDB` (the `ApplyPending` entry
point): a no-op on an empty host filter; compute the install and remove sets
for the filter; a no-op when both are empty; otherwise apply the deletions
and pending upserts. -/
def bulkSetPendingMDMWindowsHostProfilesDB (db : DB) (uuids : List String) :
    DB :=
  if uuids.isEmpty then db
  else if (listMDMWindowsProfilesToInstallDB db uuids).isEmpty &&
      (listMDMWindowsProfilesToRemoveDB db uuids).isEmpty then db
  else { db with hostProfiles := applyPendingRows db uuids }

/-! ## Configuration profile creation (`NewMDMWindowsConfigProfile`) -/

/-- Outcome of `NewMDMWindowsConfigProfile`: the created profile's UUID, or
the AlreadyExists-style `existsError`. -/
inductive NewProfileResult where
  | created (profileUUID : String)
  | alreadyExists
deriving DecidableEq

/-- Function `NewMDMWindowsConfigProfile`: `INSERT ... SELECT ? ... FROM DUAL WHERE
NOT EXISTS (SELECT 1 FROM mdm_apple_configuration_profiles WHERE name = ?
AND team_id = ?)`. When an Apple profile with the same name and team exists
the SELECT yields no row, nothing is inserted, `RowsAffected` is zero and an
`existsError` is returned; when a Windows profile with the same name and
team exists the insert hits the unique key and the duplicate error is mapped
to the same `existsError`; otherwise the row is inserted. The fresh UUID
(`uuid.New()` in the source) is passed in as `profileUUID`. A nil team
pointer is treated as team 0. -/
def NewMDMWindowsConfigProfile (db : DB) (profileUUID : String)
    (teamID : Option Nat) (name syncml : String) : NewProfileResult × DB :=
  let tid := teamID.getD 0
  if db.appleProfiles.any fun a => a.name == name && a.teamID == tid then
    (.alreadyExists, db)
  else if db.profiles.any fun p => p.teamID == tid && p.name == name then
    (.alreadyExists, db)
  else
    (.created profileUUID,
     { db with profiles := db.profiles ++
        [{ profileUUID := profileUUID, teamID := tid, name := name,
           syncml := syncml }] })

/-! ## Theorems for the claims -/

/-- Claim C9: for every host counted by the combined profiles-and-disk-encryption
summary, the final bucket produced by the merge CASE of
`getMDMWindowsStatusCountsProfilesAndBitLockerDB` agrees, on every pair of a
profile-delivery class and a disk-encryption class, with the merge rule as the
spec states it: delivery Failed maps to Failed regardless; delivery Pending
maps to Failed exactly when disk encryption is Failed and otherwise Pending;
delivery Verifying maps to Failed or Pending when disk encryption is Failed or
Pending respectively and otherwise Verifying; delivery Verified passes the
disk-encryption class through unchanged. -/
theorem claim_C9 (d : ProfilesDeliveryStatus) (b : DiskEncryptionStatus) :
    mergeProfilesBitLockerStatus (profilesStatusTag d) (bitlockerStatusTag b) =
      specAggregatorMergeRule d b := by
  cases d <;> cases b <;> rfl

/-- A non-server host with no client error, an available key recorded at
time 0, and the disk reporting not-encrypted at time 1800 (thirty minutes
after the key, hence fresher than the key). -/
def c3Signals : BitLockerSignals :=
  { isServer := some false, base64Encrypted := some "key",
    decryptable := some true, clientError := none, hdekUpdatedAt := some 0,
    encrypted := some false, hdUpdatedAt := some 1800 }

/-- Counterexample for C3: the claim asserts the classifier returns Verifying
whenever the not-encrypted observation lies within one hour after the key's
timestamp, at every evaluation time. For the key recorded at time 0 and the
not-encrypted observation at time 1800 (inside the claimed window), an
evaluation at time 7200 classifies the host Enforcing, not Verifying: the
grace window of `withinGracePeriod` is anchored at the evaluation time
(`NOW()`), not at the disk observation's timestamp. -/
theorem claim_C3_counterexample :
    getMDMWindowsBitLockerStatus 7200 c3Signals =
        some DiskEncryptionStatus.enforcing ∧
      ¬getMDMWindowsBitLockerStatus 7200 c3Signals =
        some DiskEncryptionStatus.verifying := by
  constructor
  · rfl
  · decide

/-- Claim C3, amended: for every non-server host with no client error, an
available key recorded at time `t0`, and the disk reporting not-encrypted
with a disk timestamp `td` at least as fresh as the key's, the classifier
returns Verifying when the evaluation time `now` lies within one hour after
the key's timestamp and Enforcing when it lies outside that window; where the
not-encrypted observation lies relative to the key's timestamp does not
otherwise matter. -/
theorem claim_C3 (now t0 td : Int) (key : String) (hkey : key ≠ "")
    (hfresh : td ≥ t0) :
    getMDMWindowsBitLockerStatus now
        { isServer := some false, base64Encrypted := some key,
          decryptable := some true, clientError := none,
          hdekUpdatedAt := some t0, encrypted := some false,
          hdUpdatedAt := some td } =
      (if now ≤ t0 + 3600 then some DiskEncryptionStatus.verifying
       else some DiskEncryptionStatus.enforcing) := by
  simp only [getMDMWindowsBitLockerStatus, bitLockerVerified, bitLockerVerifying,
    bitLockerEnforcing, bitLockerFailed, whereNotServer, whereKeyAvailable,
    whereEncrypted, whereHostDisksUpdated, whereClientError, withinGracePeriod]
  have hk : (key == "") = false := by
    simp [hkey]
  have hf : decide (td ≥ t0) = true := by
    simpa using hfresh
  by_cases hnow : now ≤ t0 + 3600
  · have hg : decide (t0 ≥ now - 3600) = true := by
      simp only [decide_eq_true_eq]
      omega
    simp [hk, hf, hg, hnow]
  · have hg : decide (t0 ≥ now - 3600) = false := by
      simp only [decide_eq_false_iff_not]
      omega
    simp [hk, hf, hg, hnow]

/-- Witness for C3: with the key recorded at time 0, a not-encrypted
observation at time 0 and an evaluation at time 1800 (inside the hour), the
amended classification is Verifying. -/
theorem claim_C3_witness :
    getMDMWindowsBitLockerStatus 1800
        { isServer := some false, base64Encrypted := some "key",
          decryptable := some true, clientError := none,
          hdekUpdatedAt := some 0, encrypted := some false,
          hdUpdatedAt := some 0 } =
      (if (1800 : Int) ≤ 0 + 3600 then some DiskEncryptionStatus.verifying
       else some DiskEncryptionStatus.enforcing) :=
  claim_C3 1800 0 0 "key" (by decide) (by decide)

/-- Claim C8: a non-server host whose disk-encryption client error is non-empty
is classified Failed by the single-host lookup CASE, and is counted in the
failed bucket and not the verified bucket of the fleet-wide summary, even
when key availability, the encrypted flag and the timestamps satisfy the
Verified predicate. -/
theorem claim_C8 (now : Int) (s : BitLockerSignals)
    (rest : List SummaryHostRow)
    (hns : s.isServer = some false)
    (herr : whereClientError s = true)
    (hkey : whereKeyAvailable s = true)
    (henc : whereEncrypted s = true)
    (hupd : whereHostDisksUpdated s = true) :
    getMDMWindowsBitLockerStatus now s = some DiskEncryptionStatus.failed ∧
      (getMDMWindowsBitLockerSummary true now none
          (⟨"windows", none, s⟩ :: rest)).failed =
        (getMDMWindowsBitLockerSummary true now none rest).failed + 1 ∧
      (getMDMWindowsBitLockerSummary true now none
          (⟨"windows", none, s⟩ :: rest)).verified =
        (getMDMWindowsBitLockerSummary true now none rest).verified := by
  have hnsb : whereNotServer s = true := by
    simp [whereNotServer, hns]
  refine ⟨?_, ?_, ?_⟩
  · simp [getMDMWindowsBitLockerStatus, bitLockerVerified, bitLockerVerifying,
      bitLockerEnforcing, bitLockerFailed, hnsb, herr]
  · simp [getMDMWindowsBitLockerSummary, bitLockerSummaryWhere, hns,
      bitLockerFailed, hnsb, herr]
  · simp [getMDMWindowsBitLockerSummary, bitLockerSummaryWhere, hns,
      bitLockerVerified, hnsb, herr]

/-- Witness for C8: a concrete host whose signals would satisfy Verified but
whose client error is non-empty is classified Failed and counted as failed. -/
theorem claim_C8_witness :
    whereClientError
          { isServer := some false, base64Encrypted := some "key",
            decryptable := some true, clientError := some "boom",
            hdekUpdatedAt := some 0, encrypted := some true,
            hdUpdatedAt := some 0 } = true ∧
      getMDMWindowsBitLockerStatus 0
          { isServer := some false, base64Encrypted := some "key",
            decryptable := some true, clientError := some "boom",
            hdekUpdatedAt := some 0, encrypted := some true,
            hdUpdatedAt := some 0 } = some DiskEncryptionStatus.failed ∧
      (getMDMWindowsBitLockerSummary true 0 none
          [⟨"windows", none,
            { isServer := some false, base64Encrypted := some "key",
              decryptable := some true, clientError := some "boom",
              hdekUpdatedAt := some 0, encrypted := some true,
              hdUpdatedAt := some 0 }⟩]).failed =
        (getMDMWindowsBitLockerSummary true 0 none ([] : List SummaryHostRow)).failed + 1 :=
  ⟨by decide,
   (claim_C8 0 _ [] rfl (by decide) (by decide) (by decide) (by decide)).1,
   (claim_C8 0 _ [] rfl (by decide) (by decide) (by decide) (by decide)).2.1⟩

/-- Claim C10: the function `NewMDMWindowsConfigProfile` returns the AlreadyExists-style
error and leaves the stored profiles unchanged when either a Windows profile
or an Apple profile with the same name already exists for the same team. -/
theorem claim_C10 (db : DB) (profileUUID : String) (teamID : Option Nat)
    (name syncml : String)
    (hcol : (∃ a ∈ db.appleProfiles,
                a.name = name ∧ a.teamID = teamID.getD 0) ∨
            (∃ p ∈ db.profiles,
                p.name = name ∧ p.teamID = teamID.getD 0)) :
    NewMDMWindowsConfigProfile db profileUUID teamID name syncml =
      (NewProfileResult.alreadyExists, db) := by
  unfold NewMDMWindowsConfigProfile
  rcases hcol with ⟨a, ha, han, hat⟩ | ⟨p, hp, hpn, hpt⟩
  · have : (db.appleProfiles.any fun a => a.name == name && a.teamID == teamID.getD 0) = true := by
      rw [List.any_eq_true]
      exact ⟨a, ha, by simp [han, hat]⟩
    simp [this]
  · by_cases happle :
      (db.appleProfiles.any fun a => a.name == name && a.teamID == teamID.getD 0) = true
    · simp [happle]
    · have : (db.profiles.any fun p => p.teamID == teamID.getD 0 && p.name == name) = true := by
        rw [List.any_eq_true]
        exact ⟨p, hp, by simp [hpn, hpt]⟩
      simp [happle, this]

/-- Witness for C10: creating a Windows profile named "wifi" for team 1 when
an Apple profile "wifi" already exists in team 1 fails with AlreadyExists and
changes nothing. -/
theorem claim_C10_witness :
    NewMDMWindowsConfigProfile
        { enrollments := [], commands := [], commandQueue := [],
          responses := [], commandResults := [], profiles := [],
          appleProfiles := [⟨1, "wifi"⟩], hosts := [], hostProfiles := [] }
        "uuid-1" (some 1) "wifi" "<syncml/>" =
      (NewProfileResult.alreadyExists,
       { enrollments := [], commands := [], commandQueue := [],
         responses := [], commandResults := [], profiles := [],
         appleProfiles := [⟨1, "wifi"⟩], hosts := [], hostProfiles := [] }) :=
  claim_C10 _ "uuid-1" (some 1) "wifi" "<syncml/>"
    (Or.inl ⟨⟨1, "wifi"⟩, by decide, rfl, rfl⟩)

/-- Initial state for the C1 scenario: one enrolled device "D1", one command
"C1" queued for it, no results yet. -/
def c1InitialDB : DB :=
  { enrollments := [⟨1, "D1", "HW1", "h1"⟩]
    commands := [⟨"C1", "<cmd/>", "./Vendor/Test"⟩]
    commandQueue := [⟨1, "C1"⟩]
    responses := []
    commandResults := []
    profiles := []
    appleProfiles := []
    hosts := []
    hostProfiles := [] }

/-- First device response of the C1 scenario: a tracked Status operation
referencing "C1" with status code "200" and no Results operation. -/
def c1FirstResponse : SyncML :=
  ⟨"<resp1/>", [⟨.status, ⟨some "C1", some "200", none⟩, true⟩]⟩

/-- Second device response of the C1 scenario: a tracked Results operation
referencing "C1" carrying result data and no Status operation. -/
def c1SecondResponse : SyncML :=
  ⟨"<resp2/>", [⟨.results, ⟨some "C1", some "payload", none⟩, true⟩]⟩

/-- Claim C1: evaluation of the code at the claim's own scenario. After a first
write with status code "200" and no result bytes, followed by a second write
with result bytes but no status code, the final `windows_mdm_command_results`
row holds the new result bytes but an empty status code — the original "200"
is NOT retained. The Go layer always binds non-NULL values ("" and empty
bytes) for absent fields, so `COALESCE(VALUES(status_code), status_code)`
never falls back to the prior value and the empty string overwrites "200". -/
theorem claim_C1 :
    ((MDMWindowsSaveResponse c1InitialDB "D1" c1FirstResponse).bind fun db1 =>
        MDMWindowsSaveResponse db1 "D1" c1SecondResponse).toOption.map
        (fun db => db.commandResults.map fun r =>
          (r.commandUUID, r.statusCode, r.rawResult)) =
      some [("C1", some "",
        some "<SyncMLCmd><CmdRef>C1</CmdRef><Data>payload</Data></SyncMLCmd>")] := by
  rfl

/-- Initial state for the C2 scenario: command "C1" queued for two distinct
enrollments, devices "D1" (enrollment 1) and "D2" (enrollment 2). -/
def c2InitialDB : DB :=
  { enrollments := [⟨1, "D1", "HW1", "h1"⟩, ⟨2, "D2", "HW2", "h2"⟩]
    commands := [⟨"C1", "<cmd/>", "./Vendor/Test"⟩]
    commandQueue := [⟨1, "C1"⟩, ⟨2, "C1"⟩]
    responses := []
    commandResults := []
    profiles := []
    appleProfiles := []
    hosts := []
    hostProfiles := [] }

/-- Device D1's response for the C2 scenario: a tracked Status operation
referencing "C1". -/
def c2Response : SyncML :=
  ⟨"<resp/>", [⟨.status, ⟨some "C1", some "200", none⟩, true⟩]⟩

/-- Claim C2: evaluation of the code at the claim's scenario. Processing D1's
response referencing command "C1" empties the whole queue: the entry
(enrollment 2, "C1") belonging to device D2 is deleted as well, because
`dequeueCommandsStmt` filters only on `command_uuid` and not on the
responding enrollment. The claim's frame condition — queue entries of other
devices are left unchanged — does not hold. -/
theorem claim_C2 :
    c2InitialDB.commandQueue = [⟨1, "C1"⟩, ⟨2, "C1"⟩] ∧
      (MDMWindowsSaveResponse c2InitialDB "D1" c2Response).toOption.map
        (fun db => db.commandQueue) = some [] := by
  exact ⟨rfl, rfl⟩

/-- State seen by the first transaction attempt of the C4 scenario: device
"D1" is enrolled as row 1 linked to host "h1". -/
def c4DB0 : DB :=
  { enrollments := [⟨1, "D1", "HW1", "h1"⟩]
    commands := [⟨"C1", "<cmd/>", "./Vendor/Test"⟩]
    commandQueue := [⟨1, "C1"⟩]
    responses := []
    commandResults := []
    profiles := []
    appleProfiles := []
    hosts := []
    hostProfiles := [] }

/-- State seen by the retry of the C4 scenario: between the two attempts the
registry was updated concurrently and "D1" now resolves to enrollment row 2
linked to host "h2". -/
def c4DB1 : DB :=
  { c4DB0 with enrollments := [⟨2, "D1", "HW2", "h2"⟩] }

/-- The snapshot sequence of the C4 scenario: attempt 0 sees `c4DB0`, every
later attempt sees `c4DB1`. -/
def c4Snapshots : Nat → DB :=
  fun i => if i = 0 then c4DB0 else c4DB1

/-- Device response used in the C4 scenario. -/
def c4Response : SyncML :=
  ⟨"<resp/>", [⟨.status, ⟨some "C1", some "200", none⟩, true⟩]⟩

/-- Counterexample for C4: the claim says every retry re-reads the
enrollment. With the registry updated between attempt 0 and the committing
retry (attempt 1), the code stores the response under enrollment id 1 — the
identity resolved before the transaction began — whereas the fresh-lookup
behaviour the claim describes would store it under the current enrollment
id 2. The lookup in the source precedes `withRetryTxx` and is performed
once. -/
theorem claim_C4_counterexample :
    (MDMWindowsSaveResponseRetrying c4Snapshots 1 "D1" c4Response).toOption.map
        (fun db => db.responses.map fun r => r.enrollmentId) = some [1] ∧
      (MDMWindowsSaveResponseRetryingFreshLookup c4Snapshots 1 "D1"
          c4Response).toOption.map
        (fun db => db.responses.map fun r => r.enrollmentId) = some [2] := by
  exact ⟨rfl, rfl⟩

/-- Every response row added by `saveResponseTx` is linked to the enrollment
the transaction body was given. -/
theorem saveResponseTx_responses (db : DB) (e : MDMWindowsEnrolledDevice)
    (resp : SyncML) (db' : DB) (h : saveResponseTx db e resp = .ok db') :
    ∀ rr ∈ db'.responses, rr ∈ db.responses ∨ rr.enrollmentId = e.id := by
  simp only [saveResponseTx] at h
  split at h
  · cases h
    intro rr hrr
    exact Or.inl hrr
  · split at h
    · cases h
      intro rr hrr
      rcases List.mem_append.mp hrr with hold | hnew
      · exact Or.inl hold
      · right
        rcases List.mem_singleton.mp hnew with rfl
        rfl
    · split at h
      · exact absurd h (by simp)
      · cases h
        intro rr hrr
        rcases List.mem_append.mp hrr with hold | hnew
        · exact Or.inl hold
        · right
          rcases List.mem_singleton.mp hnew with rfl
          rfl

/-- Claim C4, amended: the enrollment identity is resolved exactly once,
against the state seen before the retrying transaction begins; every retry
reuses that pre-transaction identity, so the response record persisted by the
attempt that commits is linked to the enrollment resolved at time 0, not to
the enrollment current at the time of that attempt. -/
theorem claim_C4 (dbs : Nat → DB) (failedAttempts : Nat) (deviceID : String)
    (resp : SyncML) (e : MDMWindowsEnrolledDevice) (db' : DB)
    (hlookup : MDMWindowsGetEnrolledDeviceWithDeviceID (dbs 0) deviceID = some e)
    (hrun : MDMWindowsSaveResponseRetrying dbs failedAttempts deviceID resp =
      .ok db') :
    ∀ rr ∈ db'.responses,
      rr ∈ (dbs failedAttempts).responses ∨ rr.enrollmentId = e.id := by
  unfold MDMWindowsSaveResponseRetrying at hrun
  split at hrun
  · exact absurd hrun (by simp)
  · rw [hlookup] at hrun
    exact saveResponseTx_responses _ _ _ _ hrun

/-- The state committed by the retry (attempt 1) of the C4 scenario: the
response row is recorded under enrollment id 1, the result row is upserted
and the queue entry is dequeued. -/
def c4Committed : DB :=
  { enrollments := [⟨2, "D1", "HW2", "h2"⟩]
    commands := [⟨"C1", "<cmd/>", "./Vendor/Test"⟩]
    commandQueue := []
    responses := [⟨1, 1, "<resp/>"⟩]
    commandResults := [⟨1, "C1", some "", 1, some "200"⟩]
    profiles := []
    appleProfiles := []
    hosts := []
    hostProfiles := [] }

/-- Witness for C4: at the concrete C4 scenario the committed response row is
linked to enrollment id 1, the identity resolved before the first attempt. -/
theorem claim_C4_witness :
    (⟨1, 1, "<resp/>"⟩ : ResponseRow) ∈ (c4Snapshots 1).responses ∨
      (⟨1, 1, "<resp/>"⟩ : ResponseRow).enrollmentId =
        (⟨1, "D1", "HW1", "h1"⟩ : MDMWindowsEnrolledDevice).id :=
  claim_C4 c4Snapshots 1 "D1" c4Response ⟨1, "D1", "HW1", "h1"⟩ c4Committed
    rfl rfl ⟨1, 1, "<resp/>"⟩ (by decide)

/-- A (profile, host) key that is present in the table makes the upsert's
duplicate-key check succeed. -/
theorem any_key_of_mem_keys (rows : List HMWPRow) (pu hu : String)
    (h : (pu, hu) ∈ rows.map hmwpKey) :
    (rows.any fun r => r.profileUUID == pu && r.hostUUID == hu) = true := by
  rw [List.any_eq_true]
  rcases List.mem_map.mp h with ⟨r, hr, hk⟩
  refine ⟨r, hr, ?_⟩
  have h1 : r.profileUUID = pu := congrArg Prod.fst hk
  have h2 : r.hostUUID = hu := congrArg Prod.snd hk
  simp [h1, h2]

/-- When the upserted key already exists, `upsertProfileStatusRow` preserves
the key column of every row: it only rewrites detail and status. -/
theorem upsertProfileStatusRow_map_key (rows : List HMWPRow)
    (v : String × String × String × Option String)
    (hex : (rows.any fun r => r.profileUUID == v.2.1 && r.hostUUID == v.1) = true) :
    (upsertProfileStatusRow rows v).map hmwpKey = rows.map hmwpKey := by
  unfold upsertProfileStatusRow
  simp only [hex, if_true]
  rw [List.map_map]
  apply List.map_congr_left
  intro r _
  unfold hmwpKey
  simp only [Function.comp_apply]
  split <;> rfl

/-- The batch-application fold of
`updateMDMWindowsHostProfileStatusFromResponseDB` preserves the key column of
the table provided every key it touches is already present. -/
theorem applyProfileStatusLookup_foldl_map_key
    (ls : List (Option MDMWindowsProfilePayload × HMWPRow)) :
    ∀ rows : List HMWPRow,
      (∀ l ∈ ls, hmwpKey l.2 ∈ rows.map hmwpKey) →
      (ls.foldl applyProfileStatusLookup rows).map hmwpKey = rows.map hmwpKey := by
  induction ls with
  | nil => intro rows _; rfl
  | cons l tl ih =>
    intro rows hmem
    have hstep : (applyProfileStatusLookup rows l).map hmwpKey = rows.map hmwpKey := by
      unfold applyProfileStatusLookup
      match hl : l.1 with
      | none => rfl
      | some payload =>
        apply upsertProfileStatusRow_map_key
        exact any_key_of_mem_keys rows l.2.profileUUID l.2.hostUUID
          (hmem l (List.mem_cons_self l tl))
    rw [List.foldl_cons, ih (applyProfileStatusLookup rows l) ?_, hstep]
    intro l' hl'
    rw [hstep]
    exact hmem l' (List.mem_cons_of_mem l hl')

/-- Claim C5: when `updateMDMWindowsHostProfileStatusFromResponseDB` succeeds,
the (host, profile) key column of `host_mdm_windows_profiles` is exactly what
it was before: the synthesized profile outcomes only update rows that already
exist, and a device-originated response never inserts a new (host, profile)
row. (On any error the enclosing transaction aborts and the table is also
unchanged.) -/
theorem claim_C5 (hostProfiles : List HMWPRow)
    (payloads : List MDMWindowsProfilePayload) (out : List HMWPRow)
    (h : updateMDMWindowsHostProfileStatusFromResponseDB hostProfiles payloads =
      .ok out) :
    out.map hmwpKey = hostProfiles.map hmwpKey := by
  cases payloads with
  | nil =>
    simp only [updateMDMWindowsHostProfileStatusFromResponseDB] at h
    cases h
    rfl
  | cons p0 rest =>
    simp only [updateMDMWindowsHostProfileStatusFromResponseDB] at h
    split at h
    · exact absurd h (by simp)
    · split at h
      · exact absurd h (by simp)
      · split at h
        · exact absurd h (by simp)
        · cases h
          apply applyProfileStatusLookup_foldl_map_key
          intro l hl
          rcases List.mem_map.mp hl with ⟨hpRow, hmemRow, hl2⟩
          have : l.2 = hpRow := by rw [← hl2]
          rw [this]
          exact List.mem_map.mpr ⟨hpRow, (List.mem_filter.mp hmemRow).1, rfl⟩

/-- Witness for C5: updating a single existing (p1, h1) row from a payload
for its command succeeds and leaves the key column unchanged. -/
theorem claim_C5_witness :
    updateMDMWindowsHostProfileStatusFromResponseDB
        [⟨"p1", "h1", "Profile 1", "install", some "pending", "", some "c1"⟩]
        [⟨"h1", "c1", "", some "verifying"⟩] =
      .ok [⟨"p1", "h1", "Profile 1", "install", some "verifying", "", some "c1"⟩] ∧
      List.map hmwpKey
          [(⟨"p1", "h1", "Profile 1", "install", some "verifying", "",
            some "c1"⟩ : HMWPRow)] =
        List.map hmwpKey
          [(⟨"p1", "h1", "Profile 1", "install", some "pending", "",
            some "c1"⟩ : HMWPRow)] :=
  ⟨rfl, claim_C5
    [⟨"p1", "h1", "Profile 1", "install", some "pending", "", some "c1"⟩]
    [⟨"h1", "c1", "", some "verifying"⟩]
    [⟨"p1", "h1", "Profile 1", "install", some "verifying", "", some "c1"⟩]
    rfl⟩

/-- Every element returned by the install query is an element of the desired
set it joined from. -/
theorem mem_install_mem_desired (db : DB) (us : List String) (x : InstallItem)
    (h : x ∈ listMDMWindowsProfilesToInstallDB db us) : x ∈ desiredItems db us := by
  unfold listMDMWindowsProfilesToInstallDB at h
  rcases List.mem_flatMap.mp h with ⟨d, hd, hx⟩
  simp only [] at hx
  split at hx
  · rcases List.mem_singleton.mp hx with rfl
    exact hd
  · rcases List.mem_map.mp hx with ⟨_, _, rfl⟩
    exact hd

/-- Membership in the host-filtered desired set implies membership in the
unfiltered desired set. -/
theorem mem_desired_of_filtered (db : DB) (us : List String) (x : InstallItem)
    (h : x ∈ desiredItems db us) : x ∈ desiredItems db [] := by
  unfold desiredItems at h ⊢
  rcases List.mem_flatMap.mp h with ⟨p, hp, hx⟩
  rcases List.mem_flatMap.mp hx with ⟨hh, hhmem, hx2⟩
  rcases List.mem_filter.mp hhmem with ⟨hmem, hcond⟩
  refine List.mem_flatMap.mpr ⟨p, hp, List.mem_flatMap.mpr ⟨hh, ?_, hx2⟩⟩
  refine List.mem_filter.mpr ⟨hmem, ?_⟩
  simp only [Bool.and_eq_true] at hcond ⊢
  exact ⟨⟨hcond.1.1, hcond.1.2⟩, by simp⟩

/-- Characterization of membership in the remove query's result. -/
theorem mem_remove_iff (db : DB) (us : List String) (r : HMWPRow) :
    r ∈ listMDMWindowsProfilesToRemoveDB db us ↔
      r ∈ db.hostProfiles ∧
        (∀ d ∈ desiredItems db [], ¬itemKey d = hmwpKey r) ∧
        (us.isEmpty = true ∨ us.contains r.hostUUID = true) := by
  unfold listMDMWindowsProfilesToRemoveDB
  rw [List.mem_filter]
  simp [List.all_eq_true, and_assoc]

/-- Claim C7: over the desired set D (profiles joined to enrolled Windows hosts
by team) and the actual set A (`host_mdm_windows_profiles` rows), the key
sets returned by `listMDMWindowsProfilesToInstallDB` and
`listMDMWindowsProfilesToRemoveDB` (no host filter) are disjoint; together
with the keys present in both D and A they cover D union A; and no key in
both D and A ever appears in the remove set. -/
theorem claim_C7 (db : DB) (k : String × String) :
    (k ∈ (listMDMWindowsProfilesToInstallDB db []).map itemKey →
      ¬k ∈ (listMDMWindowsProfilesToRemoveDB db []).map hmwpKey) ∧
      ((k ∈ (desiredItems db []).map itemKey ∨
          k ∈ db.hostProfiles.map hmwpKey) →
        (k ∈ (listMDMWindowsProfilesToInstallDB db []).map itemKey ∨
          k ∈ (listMDMWindowsProfilesToRemoveDB db []).map hmwpKey ∨
          (k ∈ (desiredItems db []).map itemKey ∧
            k ∈ db.hostProfiles.map hmwpKey))) ∧
      (k ∈ (desiredItems db []).map itemKey →
        k ∈ db.hostProfiles.map hmwpKey →
        ¬k ∈ (listMDMWindowsProfilesToRemoveDB db []).map hmwpKey) := by
  have hinstD : k ∈ (listMDMWindowsProfilesToInstallDB db []).map itemKey →
      k ∈ (desiredItems db []).map itemKey := by
    intro h
    rcases List.mem_map.mp h with ⟨d, hd, rfl⟩
    exact List.mem_map.mpr ⟨d, mem_install_mem_desired db [] d hd, rfl⟩
  have hremD : k ∈ (listMDMWindowsProfilesToRemoveDB db []).map hmwpKey →
      ¬k ∈ (desiredItems db []).map itemKey := by
    intro h hk
    rcases List.mem_map.mp h with ⟨r, hr, rfl⟩
    rcases List.mem_map.mp hk with ⟨d, hd, hdk⟩
    exact ((mem_remove_iff db [] r).mp hr).2.1 d hd hdk
  refine ⟨fun hi hr => hremD hr (hinstD hi), ?_, fun hD _ hr => hremD hr hD⟩
  intro hmem
  by_cases hD : k ∈ (desiredItems db []).map itemKey
  · by_cases hA : k ∈ db.hostProfiles.map hmwpKey
    · exact Or.inr (Or.inr ⟨hD, hA⟩)
    · left
      rcases List.mem_map.mp hD with ⟨d, hd, rfl⟩
      refine List.mem_map.mpr ⟨d, ?_, rfl⟩
      unfold listMDMWindowsProfilesToInstallDB
      refine List.mem_flatMap.mpr ⟨d, hd, ?_⟩
      have hempty : (db.hostProfiles.filter fun r =>
          hmwpKey r = itemKey d) = [] := by
        rw [List.filter_eq_nil_iff]
        intro r hrmem hrk
        exact hA (List.mem_map.mpr ⟨r, hrmem, by simpa using hrk⟩)
      simp [hempty]
  · rcases hmem with hmem | hA
    · exact absurd hmem hD
    · right; left
      rcases List.mem_map.mp hA with ⟨r, hr, rfl⟩
      refine List.mem_map.mpr ⟨r, ?_, rfl⟩
      rw [mem_remove_iff]
      refine ⟨hr, ?_, Or.inl rfl⟩
      intro d hd hdk
      exact hD (List.mem_map.mpr ⟨d, hd, hdk⟩)

/-- Witness for C7: in a concrete datastore where profile p1 is desired for
enrolled Windows host h1 and an actual row for (p1, h1) exists, the key
(p1, h1) is not in the remove set. -/
theorem claim_C7_witness :
    ¬("p1", "h1") ∈ (listMDMWindowsProfilesToRemoveDB
        { enrollments := [⟨1, "D1", "HW1", "h1"⟩]
          commands := [], commandQueue := [], responses := []
          commandResults := []
          profiles := [⟨"p1", 0, "Profile 1", "<syncml/>"⟩]
          appleProfiles := []
          hosts := [⟨"h1", none, "windows"⟩]
          hostProfiles := [⟨"p1", "h1", "Profile 1", "install", none, "",
            some ""⟩] } []).map hmwpKey :=
  (claim_C7 _ ("p1", "h1")).2.2 (by decide) (by decide)

/-- A row already carrying exactly the values the pending-upsert writes. -/
def isPendingRow (r : HMWPRow) : Prop :=
  r.operationType = "install" ∧ r.status = none ∧ r.commandUUID = some "" ∧
    r.detail = ""

/-- Re-writing the pending values onto a row that already carries them is the
identity. -/
theorem pending_update_self (r : HMWPRow) (h : isPendingRow r) :
    ({ r with
        operationType := "install"
        status := none
        commandUUID := some ""
        detail := "" } : HMWPRow) = r := by
  obtain ⟨h1, h2, h3, h4⟩ := h
  cases r
  simp_all

/-- The pending-upsert never invents keys: every output row has the key of
an input row or the upserted key. -/
theorem upsertPendingRow_key_origin (rows : List HMWPRow) (d : InstallItem)
    (r : HMWPRow) (h : r ∈ upsertPendingRow rows d) :
    (∃ r0 ∈ rows, hmwpKey r = hmwpKey r0) ∨ hmwpKey r = itemKey d := by
  unfold upsertPendingRow at h
  split at h
  · rcases List.mem_map.mp h with ⟨r0, hr0, rfl⟩
    left
    refine ⟨r0, hr0, ?_⟩
    split <;> rfl
  · rcases List.mem_append.mp h with h0 | h1
    · exact Or.inl ⟨r, h0, rfl⟩
    · right
      rcases List.mem_singleton.mp h1 with rfl
      rfl

/-- After the pending-upsert the upserted key is present. -/
theorem upsertPendingRow_exists_key (rows : List HMWPRow) (d : InstallItem) :
    ∃ r ∈ upsertPendingRow rows d, hmwpKey r = itemKey d := by
  unfold upsertPendingRow
  split
  · next hany =>
    rcases List.any_eq_true.mp hany with ⟨r0, hr0, hk⟩
    have hk' : hmwpKey r0 = itemKey d := of_decide_eq_true hk
    refine ⟨_, List.mem_map.mpr ⟨r0, hr0, rfl⟩, ?_⟩
    rw [if_pos hk']
    exact hk'
  · exact ⟨_, List.mem_append.mpr (Or.inr (List.mem_singleton.mpr rfl)), rfl⟩

/-- The pending-upsert preserves the presence of every key. -/
theorem upsertPendingRow_preserve_exists (rows : List HMWPRow) (d : InstallItem)
    (k : String × String) (h : ∃ r ∈ rows, hmwpKey r = k) :
    ∃ r ∈ upsertPendingRow rows d, hmwpKey r = k := by
  rcases h with ⟨r0, hr0, hk⟩
  unfold upsertPendingRow
  split
  · refine ⟨_, List.mem_map.mpr ⟨r0, hr0, rfl⟩, ?_⟩
    split <;> exact hk
  · exact ⟨r0, List.mem_append.mpr (Or.inl hr0), hk⟩

/-- After the pending-upsert, every row of the upserted key carries the
pending values. -/
theorem upsertPendingRow_sets_pending (rows : List HMWPRow) (d : InstallItem)
    (r : HMWPRow) (h : r ∈ upsertPendingRow rows d)
    (hk : hmwpKey r = itemKey d) : isPendingRow r := by
  unfold upsertPendingRow at h
  split at h
  · rcases List.mem_map.mp h with ⟨r0, hr0, rfl⟩
    by_cases hc : hmwpKey r0 = itemKey d
    · rw [if_pos hc]
      exact ⟨rfl, rfl, rfl, rfl⟩
    · rw [if_neg hc] at hk
      exact absurd hk hc
  · next hany =>
    rcases List.mem_append.mp h with h0 | h1
    · exact absurd (List.any_eq_true.mpr ⟨r, h0, decide_eq_true hk⟩) hany
    · rcases List.mem_singleton.mp h1 with rfl
      exact ⟨rfl, rfl, rfl, rfl⟩

/-- If every row of key `k` carries the pending values, the same holds after
any pending-upsert. -/
theorem upsertPendingRow_preserve_pending_at (rows : List HMWPRow)
    (d : InstallItem) (k : String × String)
    (hall : ∀ r ∈ rows, hmwpKey r = k → isPendingRow r) :
    ∀ r ∈ upsertPendingRow rows d, hmwpKey r = k → isPendingRow r := by
  intro r hr hk
  unfold upsertPendingRow at hr
  split at hr
  · rcases List.mem_map.mp hr with ⟨r0, hr0, rfl⟩
    by_cases hc : hmwpKey r0 = itemKey d
    · rw [if_pos hc]
      exact ⟨rfl, rfl, rfl, rfl⟩
    · rw [if_neg hc] at hk ⊢
      exact hall r0 hr0 hk
  · rcases List.mem_append.mp hr with h0 | h1
    · exact hall r h0 hk
    · rcases List.mem_singleton.mp h1 with rfl
      exact ⟨rfl, rfl, rfl, rfl⟩

/-- A row of an untouched key that is present after a pending-upsert was
present before. -/
theorem upsertPendingRow_untouched (rows : List HMWPRow) (d : InstallItem)
    (k : String × String) (hne : ¬itemKey d = k) (r : HMWPRow)
    (h : r ∈ upsertPendingRow rows d) (hk : hmwpKey r = k) : r ∈ rows := by
  unfold upsertPendingRow at h
  split at h
  · rcases List.mem_map.mp h with ⟨r0, hr0, rfl⟩
    by_cases hc : hmwpKey r0 = itemKey d
    · rw [if_pos hc] at hk
      have hk0 : hmwpKey r0 = k := hk
      exact absurd (hc.symm.trans hk0) hne
    · rw [if_neg hc] at hk ⊢
      exact hr0
  · rcases List.mem_append.mp h with h0 | h1
    · exact h0
    · rcases List.mem_singleton.mp h1 with rfl
      have hk0 : itemKey d = k := hk
      exact absurd hk0 hne

/-- The pending-upsert is the identity on a table where its key is present
and already pending everywhere. -/
theorem upsertPendingRow_id (rows : List HMWPRow) (d : InstallItem)
    (hex : ∃ r ∈ rows, hmwpKey r = itemKey d)
    (hall : ∀ r ∈ rows, hmwpKey r = itemKey d → isPendingRow r) :
    upsertPendingRow rows d = rows := by
  unfold upsertPendingRow
  rcases hex with ⟨r0, hr0, hk0⟩
  rw [if_pos (List.any_eq_true.mpr ⟨r0, hr0, decide_eq_true hk0⟩)]
  have : rows.map (fun r =>
      if hmwpKey r = itemKey d then
        { r with operationType := "install", status := none,
                 commandUUID := some "", detail := "" }
      else r) = rows.map id := by
    apply List.map_congr_left
    intro r hr
    by_cases hc : hmwpKey r = itemKey d
    · rw [if_pos hc]
      exact pending_update_self r (hall r hr hc)
    · rw [if_neg hc]
      rfl
  rw [this, List.map_id]

/-- The install fold preserves the presence of every key. -/
theorem foldl_upsert_preserve_exists (ds : List InstallItem) :
    ∀ (rows : List HMWPRow) (k : String × String),
      (∃ r ∈ rows, hmwpKey r = k) →
      ∃ r ∈ ds.foldl upsertPendingRow rows, hmwpKey r = k := by
  induction ds with
  | nil => intro rows k h; exact h
  | cons d tl ih =>
    intro rows k h
    exact ih _ k (upsertPendingRow_preserve_exists rows d k h)

/-- After the install fold, every upserted key is present. -/
theorem foldl_upsert_exists (ds : List InstallItem) :
    ∀ (rows : List HMWPRow) (d : InstallItem), d ∈ ds →
      ∃ r ∈ ds.foldl upsertPendingRow rows, hmwpKey r = itemKey d := by
  induction ds with
  | nil => intro rows d h; cases h
  | cons d0 tl ih =>
    intro rows d hd
    rcases List.mem_cons.mp hd with rfl | hd'
    · exact foldl_upsert_preserve_exists tl _ _
        (upsertPendingRow_exists_key rows d)
    · exact ih _ d hd'

/-- The install fold preserves "every row of key k is pending". -/
theorem foldl_upsert_preserve_pending_at (ds : List InstallItem) :
    ∀ (rows : List HMWPRow) (k : String × String),
      (∀ r ∈ rows, hmwpKey r = k → isPendingRow r) →
      ∀ r ∈ ds.foldl upsertPendingRow rows, hmwpKey r = k → isPendingRow r := by
  induction ds with
  | nil => intro rows k h; exact h
  | cons d tl ih =>
    intro rows k h
    exact ih _ k (upsertPendingRow_preserve_pending_at rows d k h)

/-- After the install fold, every row of an upserted key is pending. -/
theorem foldl_upsert_pending (ds : List InstallItem) :
    ∀ (rows : List HMWPRow) (d : InstallItem), d ∈ ds →
      ∀ r ∈ ds.foldl upsertPendingRow rows, hmwpKey r = itemKey d →
        isPendingRow r := by
  induction ds with
  | nil => intro rows d h; cases h
  | cons d0 tl ih =>
    intro rows d hd
    rcases List.mem_cons.mp hd with rfl | hd'
    · exact foldl_upsert_preserve_pending_at tl _ _
        (fun r hr hk => upsertPendingRow_sets_pending rows d r hr hk)
    · exact ih _ d hd'

/-- The install fold never invents keys. -/
theorem foldl_upsert_key_origin (ds : List InstallItem) :
    ∀ (rows : List HMWPRow) (r : HMWPRow), r ∈ ds.foldl upsertPendingRow rows →
      (∃ r0 ∈ rows, hmwpKey r = hmwpKey r0) ∨ ∃ d ∈ ds, hmwpKey r = itemKey d := by
  induction ds with
  | nil => intro rows r h; exact Or.inl ⟨r, h, rfl⟩
  | cons d0 tl ih =>
    intro rows r h
    rcases ih _ r h with ⟨r0, hr0, hk⟩ | ⟨d, hd, hk⟩
    · rcases upsertPendingRow_key_origin rows d0 r0 hr0 with ⟨r1, hr1, hk1⟩ | hk1
      · exact Or.inl ⟨r1, hr1, hk.trans hk1⟩
      · exact Or.inr ⟨d0, List.mem_cons_self _ _, hk.trans hk1⟩
    · exact Or.inr ⟨d, List.mem_cons_of_mem _ hd, hk⟩

/-- A row of a key untouched by the install fold was present before the
fold. -/
theorem foldl_upsert_untouched (ds : List InstallItem) :
    ∀ (rows : List HMWPRow) (k : String × String),
      (∀ d ∈ ds, ¬itemKey d = k) →
      ∀ r ∈ ds.foldl upsertPendingRow rows, hmwpKey r = k → r ∈ rows := by
  induction ds with
  | nil => intro rows k _ r h _; exact h
  | cons d0 tl ih =>
    intro rows k hne r h hk
    have hmem := ih _ k (fun d hd => hne d (List.mem_cons_of_mem _ hd)) r h hk
    exact upsertPendingRow_untouched rows d0 k (hne d0 (List.mem_cons_self _ _))
      r hmem hk

/-- The install fold is the identity on a table where every upserted key is
present and already pending everywhere. -/
theorem foldl_upsert_id (ds : List InstallItem) :
    ∀ rows : List HMWPRow,
      (∀ d ∈ ds, (∃ r ∈ rows, hmwpKey r = itemKey d) ∧
        (∀ r ∈ rows, hmwpKey r = itemKey d → isPendingRow r)) →
      ds.foldl upsertPendingRow rows = rows := by
  induction ds with
  | nil => intro rows _; rfl
  | cons d0 tl ih =>
    intro rows h
    have h0 := h d0 (List.mem_cons_self _ _)
    rw [List.foldl_cons, upsertPendingRow_id rows d0 h0.1 h0.2]
    exact ih rows (fun d hd => h d (List.mem_cons_of_mem _ hd))

/-- The desired set only reads the profile, host and enrollment tables, so
updating `hostProfiles` leaves it unchanged. -/
theorem desiredItems_hostProfiles (db : DB) (rows : List HMWPRow)
    (l : List String) :
    desiredItems { db with hostProfiles := rows } l = desiredItems db l := rfl

/-- A row whose key is desired survives the remove-set deletion. -/
theorem mem_delete_of_desired (db : DB) (uuids : List String) (r0 : HMWPRow)
    (hr0 : r0 ∈ db.hostProfiles)
    (hdes : ∃ d ∈ desiredItems db [], itemKey d = hmwpKey r0) :
    r0 ∈ bulkDeleteMDMWindowsHostsConfigProfilesDB db.hostProfiles
      (listMDMWindowsProfilesToRemoveDB db uuids) := by
  unfold bulkDeleteMDMWindowsHostsConfigProfilesDB
  refine List.mem_filter.mpr ⟨hr0, ?_⟩
  rw [Bool.not_eq_true', List.any_eq_false]
  intro p hp
  simp only [decide_eq_true_eq]
  intro hkeq
  rcases hdes with ⟨d0, hd0, hk0⟩
  exact ((mem_remove_iff db uuids p).mp hp).2.1 d0 hd0 (hk0.trans hkeq.symm)

/-- A row that survives the remove-set deletion and lies inside the host
filter has a desired key. -/
theorem delete_survivor_key_desired (db : DB) (uuids : List String)
    (r0 : HMWPRow)
    (hr0 : r0 ∈ bulkDeleteMDMWindowsHostsConfigProfilesDB db.hostProfiles
      (listMDMWindowsProfilesToRemoveDB db uuids))
    (hhost : uuids.contains r0.hostUUID = true) :
    ∃ d ∈ desiredItems db [], itemKey d = hmwpKey r0 := by
  unfold bulkDeleteMDMWindowsHostsConfigProfilesDB at hr0
  rcases List.mem_filter.mp hr0 with ⟨hmem, hcond⟩
  by_contra hnone
  push_neg at hnone
  have hrem : r0 ∈ listMDMWindowsProfilesToRemoveDB db uuids :=
    (mem_remove_iff db uuids r0).mpr
      ⟨hmem, fun d hd => hnone d hd, Or.inr hhost⟩
  rw [Bool.not_eq_true', List.any_eq_false] at hcond
  exact hcond r0 hrem (decide_eq_true rfl)

/-- After one `ApplyPending` run, every desired key (within the host filter)
is present in the table. -/
theorem applyPendingRows_exists_desired (db : DB) (uuids : List String)
    (d : InstallItem) (hd : d ∈ desiredItems db uuids) :
    ∃ r ∈ applyPendingRows db uuids, hmwpKey r = itemKey d := by
  unfold applyPendingRows
  by_cases hin : ∃ d1 ∈ listMDMWindowsProfilesToInstallDB db uuids,
      itemKey d1 = itemKey d
  · rcases hin with ⟨d1, hd1, hk1⟩
    rcases foldl_upsert_exists (listMDMWindowsProfilesToInstallDB db uuids)
      (bulkDeleteMDMWindowsHostsConfigProfilesDB db.hostProfiles
        (listMDMWindowsProfilesToRemoveDB db uuids)) d1 hd1 with ⟨r, hr, hk⟩
    exact ⟨r, hr, hk.trans hk1⟩
  · have hms : ∃ r0 ∈ db.hostProfiles, hmwpKey r0 = itemKey d := by
      by_contra hnone
      push_neg at hnone
      apply hin
      refine ⟨d, ?_, rfl⟩
      unfold listMDMWindowsProfilesToInstallDB
      refine List.mem_flatMap.mpr ⟨d, hd, ?_⟩
      have hfil : (db.hostProfiles.filter fun r =>
          decide (hmwpKey r = itemKey d)) = [] := by
        rw [List.filter_eq_nil_iff]
        intro r hr
        simpa using hnone r hr
      simp [hfil]
    rcases hms with ⟨r0, hr0, hk0⟩
    have hr0' : r0 ∈ bulkDeleteMDMWindowsHostsConfigProfilesDB db.hostProfiles
        (listMDMWindowsProfilesToRemoveDB db uuids) :=
      mem_delete_of_desired db uuids r0 hr0
        ⟨d, mem_desired_of_filtered db uuids d hd, hk0.symm⟩
    exact foldl_upsert_preserve_exists _ _ _ ⟨r0, hr0', hk0⟩

/-- After one `ApplyPending` run, the remove set of the resulting state is
empty: every surviving or upserted row inside the host filter has a desired
key. -/
theorem remove_after_applyPending_nil (db : DB) (uuids : List String)
    (hu : uuids.isEmpty = false) :
    listMDMWindowsProfilesToRemoveDB
      { db with hostProfiles := applyPendingRows db uuids } uuids = [] := by
  unfold listMDMWindowsProfilesToRemoveDB
  rw [List.filter_eq_nil_iff]
  intro r hr hpred
  rw [desiredItems_hostProfiles] at hpred
  rw [Bool.and_eq_true] at hpred
  rcases hpred with ⟨hall, hfilter⟩
  rw [hu, Bool.false_or] at hfilter
  rw [List.all_eq_true] at hall
  have hr2 : r ∈ applyPendingRows db uuids := hr
  unfold applyPendingRows at hr2
  rcases foldl_upsert_key_origin _ _ r hr2 with ⟨r0, hr0, hk⟩ | ⟨d, hd, hk⟩
  · have hhost : uuids.contains r0.hostUUID = true := by
      have : r.hostUUID = r0.hostUUID := congrArg Prod.snd hk
      rw [← this]
      exact hfilter
    rcases delete_survivor_key_desired db uuids r0 hr0 hhost with ⟨d, hd, hkd⟩
    have hne := hall d hd
    rw [Bool.not_eq_true', decide_eq_false_iff_not] at hne
    exact hne (hkd.trans hk.symm)
  · have hdes : d ∈ desiredItems db [] :=
      mem_desired_of_filtered db uuids d (mem_install_mem_desired db uuids d hd)
    have hne := hall d hdes
    rw [Bool.not_eq_true', decide_eq_false_iff_not] at hne
    exact hne hk.symm

/-- After one `ApplyPending` run, every element of the install set of the
resulting state has its key present, and every row of that key is already in
the pending state — so the second run's upserts are identities. -/
theorem install_after_applyPending_cond (db : DB) (uuids : List String)
    (hu : uuids.isEmpty = false) :
    ∀ d ∈ listMDMWindowsProfilesToInstallDB
        { db with hostProfiles := applyPendingRows db uuids } uuids,
      (∃ r ∈ applyPendingRows db uuids, hmwpKey r = itemKey d) ∧
        ∀ r ∈ applyPendingRows db uuids, hmwpKey r = itemKey d →
          isPendingRow r := by
  intro d hd2
  have hdes2 : d ∈ desiredItems db uuids := by
    have := mem_install_mem_desired _ uuids d hd2
    rw [desiredItems_hostProfiles] at this
    exact this
  refine ⟨applyPendingRows_exists_desired db uuids d hdes2, ?_⟩
  by_cases hkey1 : ∃ d1 ∈ listMDMWindowsProfilesToInstallDB db uuids,
      itemKey d1 = itemKey d
  · rcases hkey1 with ⟨d1, hd1, hk1⟩
    intro r hr hk
    have hr2 : r ∈ (listMDMWindowsProfilesToInstallDB db uuids).foldl
        upsertPendingRow
        (bulkDeleteMDMWindowsHostsConfigProfilesDB db.hostProfiles
          (listMDMWindowsProfilesToRemoveDB db uuids)) := hr
    exact foldl_upsert_pending _ _ d1 hd1 r hr2 (hk.trans hk1.symm)
  · exfalso
    unfold listMDMWindowsProfilesToInstallDB at hd2
    rcases List.mem_flatMap.mp hd2 with ⟨d', hd', hx⟩
    rw [desiredItems_hostProfiles] at hd'
    simp only [] at hx
    split at hx
    · next hempty =>
      rcases List.mem_singleton.mp hx with rfl
      rcases applyPendingRows_exists_desired db uuids d hdes2 with ⟨r, hr, hk⟩
      rw [List.isEmpty_iff, List.filter_eq_nil_iff] at hempty
      exact hempty r hr (decide_eq_true hk)
    · next hnonempty =>
      obtain ⟨rp, hrpmem, hd'd⟩ := List.mem_map.mp hx
      have hdd : d' = d := hd'd
      subst hdd
      rcases List.mem_filter.mp hrpmem with ⟨hrp2, hrpflags⟩
      rcases List.mem_filter.mp hrp2 with ⟨hrpRows2, hrpKeyB⟩
      have hkey : hmwpKey rp = itemKey d' := of_decide_eq_true hrpKeyB
      have hne : ∀ d1 ∈ listMDMWindowsProfilesToInstallDB db uuids,
          ¬itemKey d1 = itemKey d' := fun d1 hd1 hk1 => hkey1 ⟨d1, hd1, hk1⟩
      have hrpRows2' : rp ∈ (listMDMWindowsProfilesToInstallDB db uuids).foldl
          upsertPendingRow
          (bulkDeleteMDMWindowsHostsConfigProfilesDB db.hostProfiles
            (listMDMWindowsProfilesToRemoveDB db uuids)) := hrpRows2
      have hrp1 : rp ∈ bulkDeleteMDMWindowsHostsConfigProfilesDB
          db.hostProfiles (listMDMWindowsProfilesToRemoveDB db uuids) :=
        foldl_upsert_untouched _ _ (itemKey d') hne rp hrpRows2' hkey
      have hrpDb : rp ∈ db.hostProfiles := by
        unfold bulkDeleteMDMWindowsHostsConfigProfilesDB at hrp1
        exact (List.mem_filter.mp hrp1).1
      apply hkey1
      refine ⟨d', ?_, rfl⟩
      unfold listMDMWindowsProfilesToInstallDB
      refine List.mem_flatMap.mpr ⟨d', hd', ?_⟩
      have hms1 : rp ∈ db.hostProfiles.filter fun r =>
          decide (hmwpKey r = itemKey d') :=
        List.mem_filter.mpr ⟨hrpDb, decide_eq_true hkey⟩
      simp only []
      rw [if_neg (fun hempty => by
        rw [List.isEmpty_iff] at hempty
        rw [hempty] at hms1
        exact absurd hms1 (List.not_mem_nil rp))]
      exact List.mem_map.mpr ⟨rp, List.mem_filter.mpr ⟨hms1, hrpflags⟩, rfl⟩

/-- Claim C6: the function `ApplyPending` (`bulkSetPendingMDMWindowsHostProfilesDB`) is
idempotent: running it a second time for the same host filter, with the
desired-assignment inputs unchanged and the actual state being the result of
the first run, leaves the datastore — in particular the
`host_mdm_windows_profiles` row set — exactly as it was after the first
run. -/
theorem claim_C6 (db : DB) (uuids : List String) :
    bulkSetPendingMDMWindowsHostProfilesDB
        (bulkSetPendingMDMWindowsHostProfilesDB db uuids) uuids =
      bulkSetPendingMDMWindowsHostProfilesDB db uuids := by
  by_cases hu : uuids.isEmpty = true
  · have h1 : bulkSetPendingMDMWindowsHostProfilesDB db uuids = db := by
      unfold bulkSetPendingMDMWindowsHostProfilesDB
      rw [if_pos hu]
    rw [h1, h1]
  · have hu' : uuids.isEmpty = false := by
      simpa using hu
    by_cases h0 : ((listMDMWindowsProfilesToInstallDB db uuids).isEmpty &&
        (listMDMWindowsProfilesToRemoveDB db uuids).isEmpty) = true
    · have h1 : bulkSetPendingMDMWindowsHostProfilesDB db uuids = db := by
        unfold bulkSetPendingMDMWindowsHostProfilesDB
        rw [if_neg hu, if_pos h0]
      rw [h1, h1]
    · have hdb2 : bulkSetPendingMDMWindowsHostProfilesDB db uuids =
          { db with hostProfiles := applyPendingRows db uuids } := by
        unfold bulkSetPendingMDMWindowsHostProfilesDB
        rw [if_neg hu, if_neg h0]
      rw [hdb2]
      have hA := remove_after_applyPending_nil db uuids hu'
      have hB := install_after_applyPending_cond db uuids hu'
      obtain ⟨P, hgen⟩ : ∃ P, applyPendingRows db uuids = P := ⟨_, rfl⟩
      rw [hgen] at hA hB ⊢
      unfold bulkSetPendingMDMWindowsHostProfilesDB
      rw [if_neg hu]
      by_cases h02 : ((listMDMWindowsProfilesToInstallDB
            { db with hostProfiles := P } uuids).isEmpty &&
          (listMDMWindowsProfilesToRemoveDB
            { db with hostProfiles := P } uuids).isEmpty) = true
      · rw [if_pos h02]
      · rw [if_neg h02]
        have hfold : applyPendingRows { db with hostProfiles := P } uuids =
            P := by
          conv_lhs => unfold applyPendingRows
          rw [hA]
          simp only [bulkDeleteMDMWindowsHostsConfigProfilesDB, List.any_nil,
            Bool.not_false, List.filter_true]
          exact foldl_upsert_id _ _ hB
        rw [hfold]

end MicrosoftMDM
